import Mathlib

/-!
Shallow embedding of the CV analysis engine of `ShenKira/CHI-CVAnalysis`
(file `src/cv_analysis.py`, class `CVAnalyzer`).

Modelling conventions:
* Python floats are modelled by `ℚ` (exact rationals); `1e-5` becomes
  `1 / 100000`, `0.01` becomes `1 / 100`.
* `self.metadata` (a Python dict) is modelled by a structure of `Option`
  fields; `metadata.get(key, default)` becomes `Option.getD`.
* A method that can return `None` or raise `ZeroDivisionError` is modelled
  by the inductive `CalcOutcome` (`skip` = returned `None`, `crash` =
  unhandled `ZeroDivisionError`, `result r` = returned the dict `r`).
* Python's stable `list.sort(reverse=True, key=...)` is modelled by
  `List.mergeSort` with the comparator `fun a b => key b ≤ key a`: a stable
  merge sort with that comparator puts larger keys first and keeps elements
  with equal keys in their original relative order, which is exactly the
  documented behaviour of Python's stable descending sort.
* In `_calculate_robust_average` the source sorts by the z-score
  `|v - mean| / stdev` with `stdev = sqrt(variance) > 0` on that branch, and
  compares `stdev == 0`.  Dividing every key by the same positive constant
  `stdev` changes neither any comparison between keys nor the stability of
  the sort, and `sqrt(variance) = 0` iff `variance = 0`; the embedding
  therefore sorts by `|v - mean|` and tests `variance = 0`, which keeps every
  definition inside `ℚ` and executable.
-/

/-- A data point `(voltage, current)` as appended by
`_parse_voltage_current_data`. -/
abbrev Sample := ℚ × ℚ

/-- The metadata fields of `self.metadata` that the analysis reads
(`scan_rate`, `segment`, `sensitivity`); each is absent (`none`) when the
corresponding key was never parsed. -/
structure Metadata where
  scan_rate : Option ℚ
  segment : Option ℕ
  sensitivity : Option ℚ
deriving DecidableEq

/-- The result dict built by `_calculate_cycle_capacitance`. -/
structure CycleResult where
  cycle_num : ℕ
  area : ℚ
  capacitance : ℚ
  is_outlier : Bool
  outlier_reason : Option String
  warning : Option String
deriving DecidableEq

/-- Outcome of one call to `_calculate_cycle_capacitance`: the method can
return `None` (`skip`), return a result dict (`result`), or raise an
unhandled `ZeroDivisionError` (`crash`). -/
inductive CalcOutcome where
  | crash
  | skip
  | result (r : CycleResult)
deriving DecidableEq

/-- The instance state of class `CVAnalyzer` that the analysis methods
read.  In the constructor `sensitivity_threshold_factor` defaults to `10`
and `outlier_count` to `1`. -/
structure CVAnalyzer where
  sensitivity_threshold_factor : ℕ
  outlier_count : ℕ
  metadata : Metadata
  voltage_current_data : List Sample
  is_cv : Bool
deriving DecidableEq

/-! ### Format parser (`_parse_voltage_current_data`)

The parser is parametrised by `pf : String → Option ℚ`, the model of
Python's `float` constructor on an (already stripped) string: `pf s = some q`
models `float(s) == q`, and `pf s = none` models `float(s)` raising
`ValueError`. -/

/-- The data header marker `"Potential/V, Current/A"`. -/
def dataHeader : String := "Potential/V, Current/A"

/-- Python's substring test `needle in line` (for a non-empty `needle`):
`line.splitOn needle` has more than one part exactly when `needle` occurs in
`line`. -/
def pyContains (needle line : String) : Bool :=
  (line.splitOn needle).length != 1

/-- The body of the data-row loop of `_parse_voltage_current_data` for one
line: strip it, skip it when blank, split on `,`, and accept it only when
that yields exactly two fields and `float` succeeds on both (a `ValueError`
from either conversion silently skips the line). -/
def processLine (pf : String → Option ℚ) (line : String) : Option Sample :=
  let stripped := line.trim
  if stripped = "" then none
  else
    match stripped.splitOn "," with
    | [a, b] =>
      match pf a.trim, pf b.trim with
      | some voltage, some current => some (voltage, current)
      | _, _ => none
    | _ => none

/-- `_parse_voltage_current_data` on the line list `content.split('\n')`:
find the first line containing the data header, then accumulate every
accepted sample from the lines after it; with no header line the data list
stays empty. -/
def parseDataLines (pf : String → Option ℚ) (lines : List String) : List Sample :=
  match lines.findIdx? (pyContains dataHeader) with
  | none => []
  | some i => (lines.drop (i + 1)).filterMap (processLine pf)

/-- `_parse_voltage_current_data` on the raw file content (the source splits
`content` on newlines first). -/
def parse_voltage_current_data (pf : String → Option ℚ) (content : String) : List Sample :=
  parseDataLines pf (content.splitOn "\n")

/-! ### Cycle segmentation (`_split_into_cycles`) -/

/-- Tail of the direction-label list: given the previous voltage and the
previous label, label each sample `1` when its voltage strictly increased,
`-1` when it strictly decreased, and copy the previous label when it is
unchanged. -/
def directionsAux (prevV : ℚ) (prevD : ℤ) : List Sample → List ℤ
  | [] => []
  | s :: rest =>
    let d : ℤ := if prevV < s.1 then 1 else if s.1 < prevV then -1 else prevD
    d :: directionsAux s.1 d rest

/-- The `direction_changes` list of `_split_into_cycles`: the first entry is
`0`, and each later entry compares the voltage with its predecessor. -/
def directions : List Sample → List ℤ
  | [] => []
  | s :: rest => 0 :: directionsAux s.1 0 rest

/-- The reversal indices collected into `direction_change_indices` (after
the leading `0`): every `i ≥ 1` with `dirs[i] ≠ dirs[i-1]` and neither label
equal to `0`. -/
def reversalIndices (dirs : List ℤ) : List ℕ :=
  (List.range' 1 (dirs.length - 1)).filter fun i =>
    (dirs.getD i 0 != dirs.getD (i - 1) 0) &&
      (dirs.getD i 0 != 0) && (dirs.getD (i - 1) 0 != 0)

/-- The `cycle_boundaries` list: start from `[0]`, append reversal indices
while fewer than `segment` boundaries have been collected, and close with
the data length. -/
def cycleBoundaries (segment : ℕ) (revs : List ℕ) (n : ℕ) : List ℕ :=
  (revs.foldl (fun acc idx => if acc.length < segment then acc ++ [idx] else acc) [0]) ++ [n]

/-- The slices `data[b[i] : b[i+1]]` between consecutive boundaries. -/
def slicesOf (data : List Sample) (bs : List ℕ) : List (List Sample) :=
  (bs.zip bs.tail).map fun p => (data.drop p.1).take (p.2 - p.1)

/-- The unpaired cycle list of `_split_into_cycles` (before the pairing
reconciliation): boundary slices of length at least 2. -/
def rawCycles (segment : ℕ) (data : List Sample) : List (List Sample) :=
  (slicesOf data (cycleBoundaries segment (reversalIndices (directions data)) data.length)).filter
    fun c => decide (2 ≤ c.length)

/-- The pairing loop of `_split_into_cycles`: concatenate `cycles[2k]` with
`cycles[2k+1]` (keeping a combined cycle only when it has more than one
sample), dropping a trailing unpaired cycle. -/
def pairUp : List (List Sample) → List (List Sample)
  | a :: b :: rest => (if 1 < (a ++ b).length then [a ++ b] else []) ++ pairUp rest
  | _ => []

/-- Following the spec's wording of the pairing reconciliation, for
comparison with `pairUp`: concatenate cycle `2k` with cycle `2k + 1` in
original order, dropping a trailing unpaired cycle (no length filter). -/
def specPairUp : List (List Sample) → List (List Sample)
  | a :: b :: rest => (a ++ b) :: specPairUp rest
  | _ => []

/-- `_split_into_cycles`. -/
def CVAnalyzer.split_into_cycles (self : CVAnalyzer) : List (List Sample) :=
  if self.voltage_current_data.length < 2 then []
  else
    let segment := self.metadata.segment.getD 10
    let expected_cycles := segment / 2
    let cycles := rawCycles segment self.voltage_current_data
    if expected_cycles < cycles.length then
      let paired_cycles := pairUp cycles
      if paired_cycles = [] then cycles else paired_cycles
    else cycles

/-! ### Per-cycle capacitance (`_calculate_cycle_capacitance`) -/

/-- The maximum-voltage scan of `_split_forward_reverse`: fold over the
remaining samples carrying the best index and best voltage so far plus the
index of the next sample, updating only on a strict increase. -/
def maxVoltAux : List Sample → ℕ → ℚ → ℕ → ℕ × ℚ
  | [], besti, bestv, _ => (besti, bestv)
  | s :: rest, besti, bestv, i =>
    if bestv < s.1 then maxVoltAux rest i s.1 (i + 1)
    else maxVoltAux rest besti bestv (i + 1)

/-- The `max_idx` computed by `_split_forward_reverse`: starting from index
`0` and the first voltage, scan all samples, keeping the first index whose
voltage strictly exceeds every earlier one. -/
def maxVoltIdx (cycle_data : List Sample) : ℕ :=
  (maxVoltAux cycle_data 0 (cycle_data.headD (0, 0)).1 0).1

/-- `_split_forward_reverse`: forward scan `cycle_data[: max_idx + 1]`,
reverse scan `cycle_data[max_idx :]`. -/
def split_forward_reverse (cycle_data : List Sample) : List Sample × List Sample :=
  if cycle_data.length < 2 then ([], [])
  else
    let max_idx := maxVoltIdx cycle_data
    (cycle_data.take (max_idx + 1), cycle_data.drop max_idx)

/-- `round(q, 6)`: rounding to six decimal places, modelled with Mathlib's
integer rounding.  Both the lookup keys and the lookup probes use this same
function, which is all the claims depend on. -/
def round6 (q : ℚ) : ℚ := ((round (q * 1000000) : ℤ) : ℚ) / 1000000

/-- The dict `reverse_dict = {round(v, 6): i for v, i in reverse_scan}` as a
lookup function: a Python dict comprehension keeps the value of the *last*
pair producing each key, hence the search over the reversed list. -/
def reverseLookup (reverse_scan : List Sample) (key : ℚ) : Option ℚ :=
  (reverse_scan.reverse.find? fun s => decide (round6 s.1 = key)).map Prod.snd

/-- One iteration of the `_calculate_area` loop on the consecutive forward
pair `p = ((v1, i1), (v2, i2))`: when both rounded voltages are keys of the
reverse lookup, the trapezoid `((i1 - ir1) + (i2 - ir2)) / 2 * |v2 - v1|`,
and otherwise `0`. -/
def pairContribution (reverse_scan : List Sample) (p : Sample × Sample) : ℚ :=
  match reverseLookup reverse_scan (round6 p.1.1), reverseLookup reverse_scan (round6 p.2.1) with
  | some ir1, some ir2 => ((p.1.2 - ir1) + (p.2.2 - ir2)) / 2 * |p.2.1 - p.1.1|
  | _, _ => 0

/-- `_calculate_area`: the absolute value of the accumulated trapezoid sum
over consecutive forward-scan pairs. -/
def calculate_area (forward_scan reverse_scan : List Sample) : ℚ :=
  |((forward_scan.zip forward_scan.tail).map (pairContribution reverse_scan)).sum|

/-- Following the spec's wording of the loop-area integration, for
comparison with `calculate_area`: the trapezoid contribution of the `i`-th
consecutive forward-scan pair, which is zero unless both rounded voltages
occur as keys of the reverse-scan lookup. -/
def specAreaTerm (f r : List Sample) (i : ℕ) : ℚ :=
  match reverseLookup r (round6 (f.getD i (0, 0)).1),
      reverseLookup r (round6 (f.getD (i + 1) (0, 0)).1) with
  | some ir1, some ir2 =>
    (((f.getD i (0, 0)).2 - ir1) + ((f.getD (i + 1) (0, 0)).2 - ir2)) / 2 *
      |(f.getD (i + 1) (0, 0)).1 - (f.getD i (0, 0)).1|
  | _, _ => 0

/-- Python `max` on a (nonempty) list of rationals. -/
def maxQ (l : List ℚ) : ℚ := l.foldl max (l.headD 0)

/-- Python `min` on a (nonempty) list of rationals. -/
def minQ (l : List ℚ) : ℚ := l.foldl min (l.headD 0)

/-- The warning string attached to an overflow outlier result. -/
def overflowWarning (factor : ℕ) : String :=
  "电流值超出" ++ toString factor ++ "x灵敏度范围，本循环数据被忽略"

/-- `_calculate_cycle_capacitance`.  The final division
`area / (2 * scan_rate * voltage_range)` raises `ZeroDivisionError`
(= `crash`) in Python whenever its divisor is `0`, which — `scan_rate = 0`
having already returned `None` — happens exactly when `voltage_range = 0`. -/
def CVAnalyzer.calculate_cycle_capacitance (self : CVAnalyzer) (cycle_num : ℕ)
    (cycle_data : List Sample) : CalcOutcome :=
  if cycle_data.length < 2 then .skip
  else
    let sensitivity := self.metadata.sensitivity.getD (1 / 100000)
    let threshold := sensitivity * (self.sensitivity_threshold_factor : ℚ)
    if cycle_data.any (fun s => decide (threshold < |s.2|)) then
      .result ⟨cycle_num, 0, 0, true, some "电流溢出",
        some (overflowWarning self.sensitivity_threshold_factor)⟩
    else
      let fr := split_forward_reverse cycle_data
      if fr.1 = [] ∨ fr.2 = [] then .skip
      else
        let area := calculate_area fr.1 fr.2
        let scan_rate := self.metadata.scan_rate.getD (1 / 100)
        if scan_rate = 0 then .skip
        else
          let voltages := fr.1.map Prod.fst
          let voltage_range := if voltages = [] then 1 else maxQ voltages - minQ voltages
          if 2 * scan_rate * voltage_range = 0 then .crash
          else
            .result ⟨cycle_num, area, area / (2 * scan_rate * voltage_range),
              false, none, none⟩

/-! ### Robust aggregation (`_calculate_robust_average`) -/

/-- `statistics.mean`. -/
def mean (values : List ℚ) : ℚ := values.sum / (values.length : ℚ)

/-- The sample variance, i.e. the square of `statistics.stdev`. -/
def sampleVar (values : List ℚ) : ℚ :=
  ((values.map fun v => (v - mean values) ^ 2).sum) / ((values.length : ℚ) - 1)

/-- The `z_scores` pair list `[(outlyingness key, v) for v in values]`.  The
source key is `|v - mean| / stdev`; the embedding drops the division by the
constant `stdev > 0`, which preserves every comparison (see the header
comment). -/
def zScorePairs (values : List ℚ) : List (ℚ × ℚ) :=
  values.map fun v => (|v - mean values|, v)

/-- `z_scores.sort(reverse=True, key=lambda x: x[0])`: a stable descending
sort on the first component. -/
def sortedByOutlyingness (values : List ℚ) : List (ℚ × ℚ) :=
  (zScorePairs values).mergeSort fun a b => decide (b.1 ≤ a.1)

/-- `_calculate_robust_average`. -/
def CVAnalyzer.calculate_robust_average (self : CVAnalyzer) (values : List ℚ) : ℚ :=
  if values.length ≤ self.outlier_count then mean values
  else
    let m := mean values
    let var := if 1 < values.length then sampleVar values else 0
    if var = 0 then m
    else
      let remaining := ((sortedByOutlyingness values).drop self.outlier_count).map Prod.snd
      if remaining = [] then m else mean remaining

/-- `_get_valid_capacitances`: capacitances of the results with
`is_outlier = false` and `capacitance > 0`, in order. -/
def get_valid_capacitances (cycle_results : List CycleResult) : List ℚ :=
  (cycle_results.filter fun r => !r.is_outlier && decide (0 < r.capacitance)).map
    CycleResult.capacitance

/-! ### The `analyze` driver -/

/-- Outcome of `CVAnalyzer.analyze`: `failure msg` models `return False`
after printing `msg`, `crash` models an exception escaping from a per-cycle
computation, `success avg` models `return True` with `avg` the aggregate
capacitance printed as the final result. -/
inductive AnalyzeOutcome where
  | failure (msg : String)
  | crash
  | success (avg : ℚ)
deriving DecidableEq

/-- The per-cycle loop of `analyze`: `_calculate_cycle_capacitance` applied
to each cycle with 1-based numbering. -/
def CVAnalyzer.cycleOutcomes (self : CVAnalyzer) (cycles : List (List Sample)) :
    List CalcOutcome :=
  cycles.enum.map fun p => self.calculate_cycle_capacitance (p.1 + 1) p.2

/-- The `capacitances` list built by `analyze` (lines 172–179): the
`capacitance` field of every result that is not `None` — outlier results
included. -/
def CVAnalyzer.collectCapacitances (self : CVAnalyzer) (cycles : List (List Sample)) :
    List ℚ :=
  (self.cycleOutcomes cycles).filterMap fun o =>
    match o with
    | .result r => some r.capacitance
    | _ => none

/-- The `cycle_results` list built by `analyze`: every result that is not
`None`, in cycle order. -/
def CVAnalyzer.collectResults (self : CVAnalyzer) (cycles : List (List Sample)) :
    List CycleResult :=
  (self.cycleOutcomes cycles).filterMap fun o =>
    match o with
    | .result r => some r
    | _ => none

/-- `analyze`. -/
def CVAnalyzer.analyze (self : CVAnalyzer) : AnalyzeOutcome :=
  if !self.is_cv then .failure "错误：未识别为CV实验"
  else if self.voltage_current_data = [] then .failure "错误：没有可用的数据"
  else
    let cycles := self.split_into_cycles
    if cycles = [] then .failure "错误：无法分割循环数据"
    else if (self.cycleOutcomes cycles).any (fun o => decide (o = .crash)) then .crash
    else
      let capacitances := self.collectCapacitances cycles
      if capacitances = [] then .failure "错误：所有循环都因超出灵敏度范围被忽略"
      else .success (self.calculate_robust_average capacitances)

/-! ### Claims -/

/-- **C1** (refuted by the code, which contradicts its own error message):
on a file whose single cycle is overflow-flagged, `analyze` does *not* fail
with the all-cycles-outlier error — the outlier result's `capacitance = 0`
is appended to `capacitances`, the emptiness test at line 192 therefore
passes, and the analysis succeeds with aggregate capacitance `0`.  Input:
default analyzer (sensitivity `1e-5`, factor `10`, threshold `1e-4`) on the
two samples `(0 V, 1 A), (1 V, 1 A)`, both of which overflow. -/
theorem C1_all_overflow_returns_zero :
    CVAnalyzer.analyze ⟨10, 1, ⟨none, none, none⟩, [((0 : ℚ), 1), (1, 1)], true⟩ =
      AnalyzeOutcome.success 0 ∧
    CVAnalyzer.analyze ⟨10, 1, ⟨none, none, none⟩, [((0 : ℚ), 1), (1, 1)], true⟩ ≠
      AnalyzeOutcome.failure "错误：所有循环都因超出灵敏度范围被忽略" := by
  have h : CVAnalyzer.analyze ⟨10, 1, ⟨none, none, none⟩, [((0 : ℚ), 1), (1, 1)], true⟩ =
      AnalyzeOutcome.success 0 := by
    norm_num [CVAnalyzer.analyze, CVAnalyzer.split_into_cycles, rawCycles, cycleBoundaries,
      slicesOf, reversalIndices, directions, directionsAux, pairUp,
      CVAnalyzer.cycleOutcomes, CVAnalyzer.collectCapacitances,
      CVAnalyzer.calculate_cycle_capacitance, CVAnalyzer.calculate_robust_average, mean,
      List.enum, List.range', overflowWarning]
    simp
  exact ⟨h, by rw [h]; simp⟩

/-- **C2** (refuted by the code): on the cycle list consisting of an
overflow-flagged cycle followed by a normal cycle, the `capacitances` list
that `analyze` hands to `_calculate_robust_average` is `[0, 1/2000]`: it
contains the outlier's forced `0`, whereas the valid capacitances (what
`_get_valid_capacitances` — never called by `analyze` — would return) are
`[1/2000]`. -/
theorem C2_outlier_zero_reaches_aggregator :
    CVAnalyzer.collectCapacitances ⟨10, 1, ⟨none, none, none⟩, [], true⟩
        [[((0 : ℚ), 1), (1, 1)],
         [((0 : ℚ), 1 / 100000), (1, 1 / 100000), (0, -1 / 100000)]] =
      [0, 1 / 2000] ∧
    get_valid_capacitances
        (CVAnalyzer.collectResults ⟨10, 1, ⟨none, none, none⟩, [], true⟩
          [[((0 : ℚ), 1), (1, 1)],
           [((0 : ℚ), 1 / 100000), (1, 1 / 100000), (0, -1 / 100000)]]) =
      [1 / 2000] ∧
    ([(0 : ℚ), 1 / 2000] ≠ [(1 : ℚ) / 2000]) := by
  refine ⟨?_, ?_, by simp⟩ <;>
    norm_num [CVAnalyzer.collectCapacitances, CVAnalyzer.collectResults,
      CVAnalyzer.cycleOutcomes, CVAnalyzer.calculate_cycle_capacitance,
      split_forward_reverse, maxVoltIdx, maxVoltAux, maxQ, minQ, calculate_area,
      pairContribution, reverseLookup, round6, List.find?, overflowWarning,
      get_valid_capacitances, List.enum, abs_of_nonneg, abs_of_nonpos, abs_neg] <;>
    simp

/-- **C3** (refuted by the code, which contradicts its own comment "the
first point's direction is positive (upward)"): on samples whose voltage
strictly decreases from the first sample to the second (`1 V, 0 V, 1 V`),
the first direction label is `0` — the undefined state — not `+1`, so index
`1` fails the `both labels nonzero` test and is *not* a reversal index; the
only reversal index is `2`. -/
theorem C3_first_direction_is_zero :
    directions [((1 : ℚ), 0), (0, 0), (1, 0)] = [0, -1, 1] ∧
    reversalIndices (directions [((1 : ℚ), 0), (0, 0), (1, 0)]) = [2] := by
  decide

/-- **C4** (refuted by the code): a cycle whose maximum voltage is attained
at index 0 (here `(1 V, 0 A), (0 V, 0 A)`) has a one-sample forward scan,
hence `voltage_range = 0`, and `_calculate_cycle_capacitance` divides by
`2 * scan_rate * 0 = 0` — a `ZeroDivisionError` (`crash`), not the `None`
skip the claim promises. -/
theorem C4_zero_voltage_range_divides_by_zero :
    CVAnalyzer.calculate_cycle_capacitance ⟨10, 1, ⟨none, none, none⟩, [], true⟩ 1
        [((1 : ℚ), 0), (0, 0)] = CalcOutcome.crash := by
  norm_num [CVAnalyzer.calculate_cycle_capacitance, split_forward_reverse, maxVoltIdx,
    maxVoltAux, maxQ, minQ, calculate_area, pairContribution, reverseLookup, round6,
    List.find?, overflowWarning]
  simp

/-- **C5** (confirmed): when the metadata has no `scan_rate` entry,
`_calculate_cycle_capacitance` behaves exactly as if `scan_rate = 0.01`
were present — the default is substituted silently, so a missing scan rate
can never by itself make a cycle be skipped or flagged. -/
theorem C5_missing_scan_rate_defaults (self : CVAnalyzer)
    (h : self.metadata.scan_rate = none) (cycle_num : ℕ) (cycle_data : List Sample) :
    self.calculate_cycle_capacitance cycle_num cycle_data =
      CVAnalyzer.calculate_cycle_capacitance
        ⟨self.sensitivity_threshold_factor, self.outlier_count,
          ⟨some (1 / 100), self.metadata.segment, self.metadata.sensitivity⟩,
          self.voltage_current_data, self.is_cv⟩ cycle_num cycle_data := by
  unfold CVAnalyzer.calculate_cycle_capacitance
  simp only [h, Option.getD_none, Option.getD_some]

/-- Witness for C5: a concrete analyzer with no `scan_rate` metadata, on a
concrete well-formed cycle; the defaulted computation yields the normal
non-outlier result with `capacitance = area / (2 * 0.01 * 1) = 1/2000`. -/
theorem C5_witness :
    (⟨10, 1, ⟨none, none, none⟩, [], true⟩ : CVAnalyzer).metadata.scan_rate = none ∧
    CVAnalyzer.calculate_cycle_capacitance ⟨10, 1, ⟨none, none, none⟩, [], true⟩ 1
        [((0 : ℚ), 1 / 100000), (1, 1 / 100000), (0, -1 / 100000)] =
      CVAnalyzer.calculate_cycle_capacitance
        ⟨10, 1, ⟨some (1 / 100), none, none⟩, [], true⟩ 1
        [((0 : ℚ), 1 / 100000), (1, 1 / 100000), (0, -1 / 100000)] ∧
    CVAnalyzer.calculate_cycle_capacitance ⟨10, 1, ⟨none, none, none⟩, [], true⟩ 1
        [((0 : ℚ), 1 / 100000), (1, 1 / 100000), (0, -1 / 100000)] =
      CalcOutcome.result ⟨1, 1 / 100000, 1 / 2000, false, none, none⟩ :=
  ⟨rfl, C5_missing_scan_rate_defaults ⟨10, 1, ⟨none, none, none⟩, [], true⟩ rfl 1 _, by
    norm_num [CVAnalyzer.calculate_cycle_capacitance, split_forward_reverse, maxVoltIdx,
      maxVoltAux, maxQ, minQ, calculate_area, pairContribution, reverseLookup, round6,
      List.find?, overflowWarning, abs_of_nonneg, abs_of_nonpos, abs_neg]
    simp⟩

/-- **C7** (confirmed): for any cycle of at least two samples, if some
sample's `|current|` strictly exceeds `sensitivity * factor` (sensitivity
defaulting to `1e-5` when absent), `_calculate_cycle_capacitance` returns
exactly the overflow outlier result — `is_outlier = true`, `area = 0`,
`capacitance = 0`, `outlier_reason = "电流溢出"` ("current overflow") and a
non-null warning — performing no further computation; conversely, when no
sample exceeds the threshold, any result it returns has
`is_outlier = false`. -/
theorem C7_overflow_check (self : CVAnalyzer) (cycle_num : ℕ) (cycle_data : List Sample)
    (h2 : 2 ≤ cycle_data.length) :
    ((∃ s ∈ cycle_data,
        self.metadata.sensitivity.getD (1 / 100000) *
          (self.sensitivity_threshold_factor : ℚ) < |s.2|) →
      self.calculate_cycle_capacitance cycle_num cycle_data =
        CalcOutcome.result ⟨cycle_num, 0, 0, true, some "电流溢出",
          some (overflowWarning self.sensitivity_threshold_factor)⟩ ∧
      some (overflowWarning self.sensitivity_threshold_factor) ≠ (none : Option String)) ∧
    ((∀ s ∈ cycle_data,
        |s.2| ≤ self.metadata.sensitivity.getD (1 / 100000) *
          (self.sensitivity_threshold_factor : ℚ)) →
      ∀ r, self.calculate_cycle_capacitance cycle_num cycle_data = CalcOutcome.result r →
        r.is_outlier = false) := by
  unfold CVAnalyzer.calculate_cycle_capacitance
  rw [if_neg (by omega)]
  constructor
  · rintro ⟨s, hs, hlt⟩
    rw [if_pos]
    · exact ⟨rfl, by simp⟩
    · simp only [List.any_eq_true, decide_eq_true_eq]
      exact ⟨s, hs, hlt⟩
  · intro hle r h
    rw [if_neg (by
      simp only [List.any_eq_true, decide_eq_true_eq, not_exists, not_and, not_lt]
      exact fun s hs => hle s hs)] at h
    dsimp only at h
    repeat' split at h
    all_goals first
      | exact CalcOutcome.noConfusion h
      | (injection h with h'; subst h'; rfl)

/-- Witness for C7: the overflow cycle `(0 V, 1 A), (1 V, 1 A)` under the
default analyzer (threshold `1e-4`). -/
theorem C7_witness :
    2 ≤ ([((0 : ℚ), 1), (1, 1)] : List Sample).length ∧
    (((∃ s ∈ ([((0 : ℚ), 1), (1, 1)] : List Sample),
        (1 : ℚ) / 100000 * ((10 : ℕ) : ℚ) < |s.2|) →
      CVAnalyzer.calculate_cycle_capacitance ⟨10, 1, ⟨none, none, none⟩, [], true⟩ 1
          [((0 : ℚ), 1), (1, 1)] =
        CalcOutcome.result ⟨1, 0, 0, true, some "电流溢出", some (overflowWarning 10)⟩ ∧
      some (overflowWarning 10) ≠ (none : Option String)) ∧
    ((∀ s ∈ ([((0 : ℚ), 1), (1, 1)] : List Sample),
        |s.2| ≤ (1 : ℚ) / 100000 * ((10 : ℕ) : ℚ)) →
      ∀ r, CVAnalyzer.calculate_cycle_capacitance ⟨10, 1, ⟨none, none, none⟩, [], true⟩ 1
          [((0 : ℚ), 1), (1, 1)] = CalcOutcome.result r → r.is_outlier = false)) :=
  ⟨by norm_num, C7_overflow_check ⟨10, 1, ⟨none, none, none⟩, [], true⟩ 1
    [((0 : ℚ), 1), (1, 1)] (by norm_num)⟩

/-- The sample variance of a one-element list is `0` (the `n - 1`
denominator vanishes; in `ℚ` division by zero yields zero, matching the
source's `stdev = 0` default for short lists). -/
theorem sampleVar_singleton (a : ℚ) : sampleVar [a] = 0 := by
  simp [sampleVar, mean]

/-- **C9** (confirmed): for a non-empty value list, `_calculate_robust_average`
returns the plain mean when `length ≤ outlier_count`; the plain mean when the
sample standard deviation is exactly zero (equivalently, when the sample
variance is zero); and otherwise the mean of what remains after dropping the
`outlier_count` entries that come first in the stable descending z-score
sort (ties kept in original relative order) — exactly `length - outlier_count`
entries remain, and the sorted entries are a permutation of the input. -/
theorem C9_robust_average (self : CVAnalyzer) (values : List ℚ) (hne : values ≠ []) :
    (values.length ≤ self.outlier_count →
      self.calculate_robust_average values = mean values) ∧
    (self.outlier_count < values.length → sampleVar values = 0 →
      self.calculate_robust_average values = mean values) ∧
    (self.outlier_count < values.length → sampleVar values ≠ 0 →
      self.calculate_robust_average values =
        mean (((sortedByOutlyingness values).drop self.outlier_count).map Prod.snd) ∧
      (((sortedByOutlyingness values).drop self.outlier_count).map Prod.snd).length =
        values.length - self.outlier_count) ∧
    ((sortedByOutlyingness values).map Prod.snd).Perm values := by
  unfold CVAnalyzer.calculate_robust_average
  refine ⟨?_, ?_, ?_, ?_⟩
  · intro h
    rw [if_pos h]
  · intro h1 h2
    have hvz : (if 1 < values.length then sampleVar values else 0) = 0 := by
      by_cases hl : 1 < values.length
      · rw [if_pos hl]; exact h2
      · rw [if_neg hl]
    rw [if_neg (not_le.mpr h1)]
    dsimp only
    rw [if_pos hvz]
  · intro h1 h2
    have hl : 1 < values.length := by
      cases values with
      | nil => exact absurd h1 (by simp)
      | cons a t =>
        cases t with
        | nil => exact absurd (sampleVar_singleton a) h2
        | cons b t' => simp only [List.length_cons]; omega
    have hvar : (if 1 < values.length then sampleVar values else 0) = sampleVar values :=
      if_pos hl
    have hlen : (((sortedByOutlyingness values).drop self.outlier_count).map Prod.snd).length =
        values.length - self.outlier_count := by
      simp [sortedByOutlyingness, List.length_mergeSort, zScorePairs]
    have hrem : (((sortedByOutlyingness values).drop self.outlier_count).map Prod.snd) ≠ [] := by
      rw [← List.length_pos_iff_ne_nil, hlen]
      omega
    rw [if_neg (not_le.mpr h1)]
    dsimp only
    rw [hvar, if_neg h2, if_neg hrem]
    exact ⟨rfl, hlen⟩
  · have hp := (List.mergeSort_perm (zScorePairs values) (fun a b => decide (b.1 ≤ a.1))).map
      Prod.snd
    have hid : (zScorePairs values).map Prod.snd = values := by
      simp [zScorePairs, List.map_map, Function.comp_def]
    rw [sortedByOutlyingness]
    rw [hid] at hp
    exact hp

/-- Witness for C9: the value list `[1, 2, 4]` with `outlier_count = 1`. -/
theorem C9_witness :
    ([(1 : ℚ), 2, 4] ≠ []) ∧
    (([(1 : ℚ), 2, 4].length ≤ 1 →
      CVAnalyzer.calculate_robust_average ⟨10, 1, ⟨none, none, none⟩, [], true⟩ [1, 2, 4] =
        mean [1, 2, 4]) ∧
    (1 < [(1 : ℚ), 2, 4].length → sampleVar [(1 : ℚ), 2, 4] = 0 →
      CVAnalyzer.calculate_robust_average ⟨10, 1, ⟨none, none, none⟩, [], true⟩ [1, 2, 4] =
        mean [1, 2, 4]) ∧
    (1 < [(1 : ℚ), 2, 4].length → sampleVar [(1 : ℚ), 2, 4] ≠ 0 →
      CVAnalyzer.calculate_robust_average ⟨10, 1, ⟨none, none, none⟩, [], true⟩ [1, 2, 4] =
        mean (((sortedByOutlyingness [(1 : ℚ), 2, 4]).drop 1).map Prod.snd) ∧
      (((sortedByOutlyingness [(1 : ℚ), 2, 4]).drop 1).map Prod.snd).length =
        [(1 : ℚ), 2, 4].length - 1) ∧
    ((sortedByOutlyingness [(1 : ℚ), 2, 4]).map Prod.snd).Perm [(1 : ℚ), 2, 4]) :=
  ⟨by simp, C9_robust_average ⟨10, 1, ⟨none, none, none⟩, [], true⟩ [1, 2, 4] (by simp)⟩

/-- Splitting the empty string on `","` yields the single empty field, as in
Python, where `''.split(',') == ['']`. -/
theorem splitOn_comma_empty : "".splitOn "," = [""] := by
  rw [String.splitOn]
  rw [show (("," : String) == "") = false from rfl]
  rw [String.splitOnAux]
  rw [show ("" : String).atEnd 0 = true from rfl]
  simp [String.extract]

/-- **C10** (confirmed): a line after the data header is accepted as a
sample iff splitting it (stripped) on a comma yields exactly two fields,
both parseable by `float` — blank lines can never satisfy this (the empty
string splits into one field), and every other line is skipped without
error; and the parsed data is empty — the condition under which `read_file`
reports the no-data error (line 58) — exactly when no line contains the
header marker or every line after the first header line is rejected. -/
theorem C10_line_acceptance (pf : String → Option ℚ) :
    (∀ line : String, (processLine pf line).isSome = true ↔
        ∃ a b, line.trim.splitOn "," = [a, b] ∧
          (pf a.trim).isSome = true ∧ (pf b.trim).isSome = true) ∧
    (∀ lines : List String, parseDataLines pf lines = [] ↔
        lines.findIdx? (pyContains dataHeader) = none ∨
        ∃ i, lines.findIdx? (pyContains dataHeader) = some i ∧
          ∀ l ∈ lines.drop (i + 1), processLine pf l = none) := by
  constructor
  · intro line
    unfold processLine
    dsimp only
    by_cases hb : line.trim = ""
    · rw [if_pos hb]
      simp only [Option.isSome_none, Bool.false_eq_true, false_iff]
      rintro ⟨a, b, hab, -⟩
      rw [hb, splitOn_comma_empty] at hab
      exact absurd hab (by simp)
    · rw [if_neg hb]
      rcases hsp : line.trim.splitOn "," with - | ⟨a, - | ⟨b, - | ⟨c, t⟩⟩⟩ <;>
        simp only [hsp]
      · simp
      · simp
      · rcases hpa : pf a.trim with - | v <;> rcases hpb : pf b.trim with - | w <;>
          simp [hpa, hpb]
        exact ⟨a, b, ⟨rfl, rfl⟩, by simp [hpa], by simp [hpb]⟩
      · simp
  · intro lines
    unfold parseDataLines
    rcases hf : lines.findIdx? (pyContains dataHeader) with - | i <;> simp [hf]

/-- `List.getD` on an append, inside the left part. -/
theorem getD_append_lt {α : Type} (l₁ l₂ : List α) (n : ℕ) (d : α) (h : n < l₁.length) :
    (l₁ ++ l₂).getD n d = l₁.getD n d := by
  simp [List.getD_eq_getElem?_getD, List.getElem?_append, h]

/-- `List.getD` on an append, inside the right part. -/
theorem getD_append_len {α : Type} (l₁ l₂ : List α) (k : ℕ) (d : α) :
    (l₁ ++ l₂).getD (l₁.length + k) d = l₂.getD k d := by
  simp [List.getD_eq_getElem?_getD, List.getElem?_append]

/-- Invariant of the `_split_forward_reverse` maximum scan: if `g` is the
already-processed prefix, `bestv` the voltage at the first strictly-largest
index `besti` seen so far, then the scan of the remaining samples `l`
returns the first index of the overall list `g ++ l` whose voltage strictly
exceeds every earlier one, together with that voltage. -/
theorem maxVoltAux_spec :
    ∀ (l g : List Sample) (besti : ℕ) (bestv : ℚ),
      besti < g.length →
      (g.getD besti (0, 0)).1 = bestv →
      (∀ j < besti, (g.getD j (0, 0)).1 < bestv) →
      (∀ j < g.length, (g.getD j (0, 0)).1 ≤ bestv) →
      (maxVoltAux l besti bestv g.length).1 < (g ++ l).length ∧
      ((g ++ l).getD (maxVoltAux l besti bestv g.length).1 (0, 0)).1 =
        (maxVoltAux l besti bestv g.length).2 ∧
      (∀ j < (maxVoltAux l besti bestv g.length).1,
        ((g ++ l).getD j (0, 0)).1 < (maxVoltAux l besti bestv g.length).2) ∧
      (∀ j < (g ++ l).length,
        ((g ++ l).getD j (0, 0)).1 ≤ (maxVoltAux l besti bestv g.length).2)
  | [], g, besti, bestv => by
    intro h1 h2 h3 h4
    rw [List.append_nil]
    exact ⟨h1, h2, h3, h4⟩
  | s :: rest, g, besti, bestv => by
    intro h1 h2 h3 h4
    have hlen : (g ++ [s]).length = g.length + 1 := by simp
    have hassoc : (g ++ [s]) ++ rest = g ++ s :: rest := by simp
    by_cases hc : bestv < s.1
    · rw [show maxVoltAux (s :: rest) besti bestv g.length =
          maxVoltAux rest g.length s.1 (g.length + 1) from by
        rw [maxVoltAux, if_pos hc]]
      have ih := maxVoltAux_spec rest (g ++ [s]) g.length s.1
        (by omega)
        (by simp)
        (by
          intro j hj
          rw [getD_append_lt g [s] j (0, 0) hj]
          exact lt_of_le_of_lt (h4 j hj) hc)
        (by
          intro j hj
          rw [hlen] at hj
          rcases Nat.lt_or_ge j g.length with hj' | hj'
          · rw [getD_append_lt g [s] j (0, 0) hj']
            exact le_of_lt (lt_of_le_of_lt (h4 j hj') hc)
          · have hj0 : j = g.length := by omega
            subst hj0
            rw [show (g ++ [s]).getD g.length (0, 0) = s from by simp])
      rw [hlen, hassoc] at ih
      exact ih
    · rw [show maxVoltAux (s :: rest) besti bestv g.length =
          maxVoltAux rest besti bestv (g.length + 1) from by
        rw [maxVoltAux, if_neg hc]]
      have ih := maxVoltAux_spec rest (g ++ [s]) besti bestv
        (by omega)
        (by rw [getD_append_lt g [s] besti (0, 0) h1]; exact h2)
        (by
          intro j hj
          rw [getD_append_lt g [s] j (0, 0) (lt_trans hj h1)]
          exact h3 j hj)
        (by
          intro j hj
          rw [hlen] at hj
          rcases Nat.lt_or_ge j g.length with hj' | hj'
          · rw [getD_append_lt g [s] j (0, 0) hj']
            exact h4 j hj'
          · have hj0 : j = g.length := by omega
            subst hj0
            rw [show (g ++ [s]).getD g.length (0, 0) = s from by simp]
            exact not_lt.mp hc)
      rw [hlen, hassoc] at ih
      exact ih

/-- `maxVoltIdx` returns an in-range index attaining the maximum voltage,
with every earlier index strictly below it (so it is the *first* index
attaining the maximum, ties broken by earliest index). -/
theorem maxVoltIdx_spec (cycle_data : List Sample) (h : cycle_data ≠ []) :
    maxVoltIdx cycle_data < cycle_data.length ∧
    (∀ j < cycle_data.length,
      (cycle_data.getD j (0, 0)).1 ≤ (cycle_data.getD (maxVoltIdx cycle_data) (0, 0)).1) ∧
    (∀ j < maxVoltIdx cycle_data,
      (cycle_data.getD j (0, 0)).1 < (cycle_data.getD (maxVoltIdx cycle_data) (0, 0)).1) := by
  cases cycle_data with
  | nil => exact absurd rfl h
  | cons s rest =>
    have hred : maxVoltIdx (s :: rest) = (maxVoltAux rest 0 s.1 1).1 := by
      rw [maxVoltIdx]
      rw [show (s :: rest).headD (0, 0) = s from rfl]
      rw [show maxVoltAux (s :: rest) 0 s.1 0 = maxVoltAux rest 0 s.1 1 from by
        rw [maxVoltAux, if_neg (lt_irrefl s.1)]]
    have spec := maxVoltAux_spec rest [s] 0 s.1
      (by simp)
      (by simp)
      (by omega)
      (by
        intro j hj
        have hj0 : j = 0 := by simpa using hj
        subst hj0
        simp)
    rw [show ([s] : List Sample) ++ rest = s :: rest from rfl] at spec
    rw [show ([s] : List Sample).length = 1 from rfl] at spec
    obtain ⟨q1, q2, q3, q4⟩ := spec
    rw [hred]
    rw [← q2] at q3 q4
    exact ⟨q1, q4, q3⟩

/-- The spec-side area term agrees pointwise with the loop body of
`_calculate_area`. -/
theorem specAreaTerm_eq (f r : List Sample) (i : ℕ) :
    specAreaTerm f r i = pairContribution r (f.getD i (0, 0), f.getD (i + 1) (0, 0)) := rfl

/-- The accumulation of `_calculate_area` over zipped consecutive pairs
equals the indexed sum of the spec-side trapezoid terms. -/
theorem zip_pairs_sum (r : List Sample) :
    ∀ f : List Sample,
      ((f.zip f.tail).map (pairContribution r)).sum =
        ∑ i ∈ Finset.range (f.length - 1), specAreaTerm f r i
  | [] => by simp
  | [a] => by simp
  | a :: b :: t => by
    have ih := zip_pairs_sum r (b :: t)
    rw [show ((a :: b :: t).zip (a :: b :: t).tail).map (pairContribution r) =
        pairContribution r (a, b) :: (((b :: t).zip (b :: t).tail).map (pairContribution r))
      from rfl]
    rw [List.sum_cons, ih]
    rw [show (a :: b :: t).length - 1 = ((b :: t).length - 1) + 1 from by simp]
    rw [Finset.sum_range_succ']
    have h0 : specAreaTerm (a :: b :: t) r 0 = pairContribution r (a, b) := rfl
    have hsucc : ∀ i, specAreaTerm (a :: b :: t) r (i + 1) = specAreaTerm (b :: t) r i :=
      fun i => rfl
    rw [h0]
    simp only [hsucc]
    ring

/-- **C6** (confirmed): for any cycle of at least two samples,
`_split_forward_reverse` splits at `maxVoltIdx` — an in-range index whose
voltage is maximal and strictly above every earlier voltage, i.e. the
*first* sample attaining the maximum — giving forward `cycle[: idx + 1]`
and reverse `cycle[idx :]`, which share the split sample; and
`_calculate_area` equals the absolute value of the sum over consecutive
forward pairs of the trapezoid term, pairs without both rounded-voltage
matches in the reverse lookup contributing nothing (`specAreaTerm`). -/
theorem C6_split_and_area (cycle_data : List Sample) (h2 : 2 ≤ cycle_data.length) :
    maxVoltIdx cycle_data < cycle_data.length ∧
    (∀ j < cycle_data.length,
      (cycle_data.getD j (0, 0)).1 ≤ (cycle_data.getD (maxVoltIdx cycle_data) (0, 0)).1) ∧
    (∀ j < maxVoltIdx cycle_data,
      (cycle_data.getD j (0, 0)).1 < (cycle_data.getD (maxVoltIdx cycle_data) (0, 0)).1) ∧
    split_forward_reverse cycle_data =
      (cycle_data.take (maxVoltIdx cycle_data + 1), cycle_data.drop (maxVoltIdx cycle_data)) ∧
    (cycle_data.take (maxVoltIdx cycle_data + 1)).getLast? =
      (cycle_data.drop (maxVoltIdx cycle_data)).head? ∧
    (∀ f r : List Sample,
      calculate_area f r = |∑ i ∈ Finset.range (f.length - 1), specAreaTerm f r i|) := by
  have hne : cycle_data ≠ [] := by
    intro h
    rw [h] at h2
    simp at h2
  obtain ⟨q1, q2, q3⟩ := maxVoltIdx_spec cycle_data hne
  refine ⟨q1, q2, q3, ?_, ?_, ?_⟩
  · rw [split_forward_reverse, if_neg (by omega)]
  · rw [List.getLast?_take, List.head?_drop]
    rw [if_neg (Nat.succ_ne_zero _)]
    simp [List.getElem?_eq_getElem q1]
  · intro f r
    rw [calculate_area, zip_pairs_sum]

/-- Witness for C6: the triangular cycle `(0 V, 1 A), (1 V, 1 A), (0 V, -1 A)`. -/
theorem C6_witness :
    2 ≤ ([((0 : ℚ), 1), (1, 1), (0, -1)] : List Sample).length ∧
    (maxVoltIdx [((0 : ℚ), 1), (1, 1), (0, -1)] <
      ([((0 : ℚ), 1), (1, 1), (0, -1)] : List Sample).length ∧
    (∀ j < ([((0 : ℚ), 1), (1, 1), (0, -1)] : List Sample).length,
      (([((0 : ℚ), 1), (1, 1), (0, -1)] : List Sample).getD j (0, 0)).1 ≤
        (([((0 : ℚ), 1), (1, 1), (0, -1)] : List Sample).getD
          (maxVoltIdx [((0 : ℚ), 1), (1, 1), (0, -1)]) (0, 0)).1) ∧
    (∀ j < maxVoltIdx [((0 : ℚ), 1), (1, 1), (0, -1)],
      (([((0 : ℚ), 1), (1, 1), (0, -1)] : List Sample).getD j (0, 0)).1 <
        (([((0 : ℚ), 1), (1, 1), (0, -1)] : List Sample).getD
          (maxVoltIdx [((0 : ℚ), 1), (1, 1), (0, -1)]) (0, 0)).1) ∧
    split_forward_reverse [((0 : ℚ), 1), (1, 1), (0, -1)] =
      (([((0 : ℚ), 1), (1, 1), (0, -1)] : List Sample).take
        (maxVoltIdx [((0 : ℚ), 1), (1, 1), (0, -1)] + 1),
       ([((0 : ℚ), 1), (1, 1), (0, -1)] : List Sample).drop
        (maxVoltIdx [((0 : ℚ), 1), (1, 1), (0, -1)])) ∧
    (([((0 : ℚ), 1), (1, 1), (0, -1)] : List Sample).take
      (maxVoltIdx [((0 : ℚ), 1), (1, 1), (0, -1)] + 1)).getLast? =
      (([((0 : ℚ), 1), (1, 1), (0, -1)] : List Sample).drop
        (maxVoltIdx [((0 : ℚ), 1), (1, 1), (0, -1)])).head? ∧
    (∀ f r : List Sample,
      calculate_area f r = |∑ i ∈ Finset.range (f.length - 1), specAreaTerm f r i|)) :=
  ⟨by simp, C6_split_and_area [((0 : ℚ), 1), (1, 1), (0, -1)] (by simp)⟩

/-- The direction-label tail has one label per sample. -/
theorem directionsAux_length (l : List Sample) :
    ∀ (prevV : ℚ) (prevD : ℤ), (directionsAux prevV prevD l).length = l.length := by
  induction l with
  | nil => intro prevV prevD; rfl
  | cons s rest ih =>
    intro prevV prevD
    rw [directionsAux]
    simp only [List.length_cons]
    rw [ih]

/-- `direction_changes` has one label per sample. -/
theorem directions_length (data : List Sample) : (directions data).length = data.length := by
  cases data with
  | nil => rfl
  | cons s rest =>
    rw [directions]
    simp only [List.length_cons]
    rw [directionsAux_length]

/-- Every reversal index lies strictly inside the data and is at least `2`:
index `1` can never be a reversal because the label at index `0` is the
undefined state `0`. -/
theorem reversal_mem_bounds (data : List Sample) (i : ℕ)
    (h : i ∈ reversalIndices (directions data)) : 2 ≤ i ∧ i < data.length := by
  rw [reversalIndices, List.mem_filter] at h
  obtain ⟨hmem, hpred⟩ := h
  rw [List.mem_range'] at hmem
  obtain ⟨k, hk, hik⟩ := hmem
  rw [directions_length] at hk
  have h1 : 1 ≤ i := by omega
  have h2 : i < data.length := by omega
  refine ⟨?_, h2⟩
  by_contra hlt
  have hi1 : i = 1 := by omega
  subst hi1
  have hdata : data ≠ [] := by
    intro hd
    rw [hd] at h2
    simp at h2
  have hzero : (directions data).getD 0 0 = 0 := by
    cases data with
    | nil => exact absurd rfl hdata
    | cons s rest => rfl
  rw [hzero] at hpred
  simp at hpred

/-- The boundary-collecting fold appends exactly the first
`segment - |acc|` reversal indices to the accumulator. -/
theorem boundaries_foldl (seg : ℕ) :
    ∀ (revs : List ℕ) (acc : List ℕ),
      revs.foldl (fun acc idx => if acc.length < seg then acc ++ [idx] else acc) acc =
        acc ++ revs.take (seg - acc.length) := by
  intro revs
  induction revs with
  | nil => intro acc; simp
  | cons r rs ih =>
    intro acc
    rw [List.foldl_cons]
    by_cases hc : acc.length < seg
    · rw [if_pos hc, ih]
      have hlen : (acc ++ [r]).length = acc.length + 1 := by simp
      rw [hlen]
      have harith : seg - acc.length = (seg - (acc.length + 1)) + 1 := by omega
      rw [harith, List.take_succ_cons, List.append_assoc]
      rfl
    · rw [if_neg hc, ih]
      have h0 : seg - acc.length = 0 := by omega
      rw [h0]
      simp

/-- Fewer than two samples leave no length-≥2 slice. -/
theorem rawCycles_of_short (seg : ℕ) (data : List Sample) (h : data.length < 2) :
    rawCycles seg data = [] := by
  cases data with
  | nil => rfl
  | cons x t =>
    cases t with
    | nil => rfl
    | cons y t' => simp at h; omega

/-- Every slice kept by the segmentation filter has at least two samples. -/
theorem rawCycles_two_le (seg : ℕ) (data : List Sample) :
    ∀ c ∈ rawCycles seg data, 2 ≤ c.length := by
  intro c hc
  rw [rawCycles, List.mem_filter] at hc
  exact of_decide_eq_true hc.2

/-- On slices of length at least two the pairing loop's
`len(combined) > 1` filter is vacuous, so it agrees with the spec-side
pairing. -/
theorem pairUp_eq_spec : ∀ l : List (List Sample), (∀ c ∈ l, 2 ≤ c.length) →
    pairUp l = specPairUp l
  | [] => fun _ => rfl
  | [a] => fun _ => rfl
  | a :: b :: rest => fun h => by
    rw [pairUp, specPairUp]
    have ha : 2 ≤ a.length := h a (by simp)
    have hb : 2 ≤ b.length := h b (by simp)
    rw [if_pos (by simp; omega)]
    rw [pairUp_eq_spec rest (fun c hc => h c (by simp [hc]))]
    rfl

/-- With at least two samples the first boundary slice — `data` itself when
no reversal index was collected, else `data[: r₁]` with `r₁ ≥ 2` the first
reversal index — always survives the length filter, so the unpaired cycle
list is never empty. -/
theorem rawCycles_ne_nil (seg : ℕ) (data : List Sample) (h : 2 ≤ data.length) :
    rawCycles seg data ≠ [] := by
  rw [rawCycles, cycleBoundaries, boundaries_foldl]
  rcases htake : (reversalIndices (directions data)).take (seg - ([0] : List ℕ).length)
    with - | ⟨r₁, t⟩
  · rw [show (([0] : List ℕ) ++ ([] : List ℕ)) ++ [data.length] = [0, data.length] from rfl]
    rw [show slicesOf data [0, data.length] = [(data.drop 0).take (data.length - 0)] from rfl]
    rw [List.drop_zero, Nat.sub_zero, List.take_length]
    rw [List.filter_cons_of_pos (by simpa using h)]
    simp
  · have hr₁ : r₁ ∈ reversalIndices (directions data) := by
      have hmem : r₁ ∈ (reversalIndices (directions data)).take
          (seg - ([0] : List ℕ).length) := by
        rw [htake]; simp
      exact List.mem_of_mem_take hmem
    obtain ⟨h2r, hrlen⟩ := reversal_mem_bounds data r₁ hr₁
    rw [show (([0] : List ℕ) ++ (r₁ :: t)) ++ [data.length] =
      0 :: r₁ :: (t ++ [data.length]) from rfl]
    rw [show slicesOf data (0 :: r₁ :: (t ++ [data.length])) =
      ((data.drop 0).take (r₁ - 0)) ::
        slicesOf data (r₁ :: (t ++ [data.length])) from rfl]
    rw [List.drop_zero, Nat.sub_zero]
    rw [List.filter_cons_of_pos (by
      simp only [decide_eq_true_eq, List.length_take]
      omega)]
    simp

/-- **C8** (confirmed): `_split_into_cycles` returns the empty list exactly
when the raw sample sequence has fewer than two samples; and whenever the
number of length-≥2 slices exceeds `segment // 2` it returns the spec-side
pairing of adjacent slices (`slice 2k ++ slice 2k+1`, trailing unpaired
slice dropped — `specPairUp`), falling back to the unpaired list when the
pairing is empty, so pairing never makes segmentation fail. -/
theorem C8_pairing (self : CVAnalyzer) :
    (self.split_into_cycles = [] ↔ self.voltage_current_data.length < 2) ∧
    self.split_into_cycles =
      (if (self.metadata.segment.getD 10) / 2 <
          (rawCycles (self.metadata.segment.getD 10) self.voltage_current_data).length then
        (if specPairUp (rawCycles (self.metadata.segment.getD 10)
            self.voltage_current_data) = []
         then rawCycles (self.metadata.segment.getD 10) self.voltage_current_data
         else specPairUp (rawCycles (self.metadata.segment.getD 10)
            self.voltage_current_data))
       else rawCycles (self.metadata.segment.getD 10) self.voltage_current_data) := by
  have hpair : pairUp (rawCycles (self.metadata.segment.getD 10) self.voltage_current_data) =
      specPairUp (rawCycles (self.metadata.segment.getD 10) self.voltage_current_data) :=
    pairUp_eq_spec _ (rawCycles_two_le _ _)
  unfold CVAnalyzer.split_into_cycles
  by_cases hlen : self.voltage_current_data.length < 2
  · rw [if_pos hlen]
    have hraw : rawCycles (self.metadata.segment.getD 10) self.voltage_current_data = [] :=
      rawCycles_of_short _ _ hlen
    constructor
    · simp [hlen]
    · rw [hraw]
      rw [show specPairUp ([] : List (List Sample)) = [] from rfl]
      simp
  · rw [if_neg hlen]
    dsimp only
    rw [hpair]
    have hraw_ne : rawCycles (self.metadata.segment.getD 10) self.voltage_current_data ≠ [] :=
      rawCycles_ne_nil _ _ (by omega)
    refine ⟨⟨fun hsplit => ?_, fun hshort => absurd hshort hlen⟩, rfl⟩
    exfalso
    revert hsplit
    split
    · split
      · exact fun hs => hraw_ne hs
      · intro hs
        exact (by assumption : ¬_ = ([] : List (List Sample))) hs
    · exact fun hs => hraw_ne hs
